import Mathlib

/-!
Shallow embedding of `src/analyze.py` (function `parse_logs`): a single-pass
log parser that keeps a stack of open tasks, closes the innermost one on a
completion line, attaches msm/fft operation counters to the innermost open
task, and finally selects the slowest closed task with a given name via a
stable sort by descending duration.

Lines are modelled as `List Char`.  Python exceptions are modelled with
`Except PyErr`.  Python dicts (string key to int count) are modelled as
insertion-ordered association lists.
-/

/-- Python whitespace test for the ASCII characters recognised by both
no-argument `str.split()` and the stripping done by `int()` (all inputs
relevant here are ASCII). -/
def isPyWS (c : Char) : Bool :=
  c == ' ' || c == '\t' || c == '\n' || c == '\r' || c == '\x0b' || c == '\x0c'

/-- Python `line.startswith(p)` on `List Char`. -/
def startsWith (p s : List Char) : Bool := p.isPrefixOf s

/-- Python substring test `needle in hay`. -/
def containsSub (needle : List Char) : List Char → Bool
  | [] => needle.isEmpty
  | c :: rest => needle.isPrefixOf (c :: rest) || containsSub needle rest

/-- Fuel-driven worker for `pySplitOn`.  The fuel bounds the number of
characters still to be scanned, so `fuel = s.length` is always enough and
the fuel-exhausted fallback is never reached from `pySplitOn`. -/
def splitOnGo (sep : List Char) : Nat → List Char → List Char → List (List Char)
  | _, [], acc => [acc.reverse]
  | 0, s, acc => [acc.reverse ++ s]
  | fuel + 1, c :: rest, acc =>
    if sep.isPrefixOf (c :: rest) then
      acc.reverse :: splitOnGo sep fuel (List.drop (sep.length - 1) rest) []
    else
      splitOnGo sep fuel rest (c :: acc)

/-- Python `s.split(sep)` for a non-empty separator: the fields between
non-overlapping left-to-right occurrences of `sep`, empty fields kept. -/
def pySplitOn (sep s : List Char) : List (List Char) :=
  splitOnGo sep s.length s []

/-- Worker for the no-argument Python `str.split()`. -/
def splitWsGo : List Char → List Char → List (List Char)
  | [], acc => if acc.isEmpty then [] else [acc.reverse]
  | c :: rest, acc =>
    if isPyWS c then
      if acc.isEmpty then splitWsGo rest [] else acc.reverse :: splitWsGo rest []
    else
      splitWsGo rest (c :: acc)

/-- Python `s.split()`: fields separated by runs of whitespace, no empty
fields. -/
def pySplitWs (s : List Char) : List (List Char) := splitWsGo s []

/-- Digit scanner for `pyInt`: `prev` records whether the previous character
was a digit (an underscore is legal only between two digits), `acc` is the
value so far (`none` while no digit has been seen). -/
def pyDigits : List Char → Bool → Option Nat → Option Nat
  | [], prev, acc => if prev then acc else none
  | c :: rest, prev, acc =>
    if c.isDigit then
      pyDigits rest true (some ((acc.getD 0) * 10 + (c.toNat - 48)))
    else if c == '_' then
      if prev then pyDigits rest false acc else none
    else
      none

/-- Python `int(s)` on ASCII text: optional surrounding whitespace, an
optional sign, then decimal digits with single underscores allowed between
digits.  Returns `none` exactly where Python raises `ValueError`. -/
def pyInt (s : List Char) : Option Int :=
  match ((s.dropWhile isPyWS).reverse.dropWhile isPyWS).reverse with
  | '+' :: ds => (pyDigits ds false none).map (fun n => (n : Int))
  | '-' :: ds => (pyDigits ds false none).map (fun n => -(n : Int))
  | ds => (pyDigits ds false none).map (fun n => (n : Int))

def tMark : List Char := [ '[', 'T' ]

def rbrSep : List Char := [ ']' ]

def startTok : List Char := [ 'S', 't', 'a', 'r', 't' ]

def startSep : List Char := [ 'S', 't', 'a', 'r', 't', ' ' ]

def doneTok : List Char := [ 'D', 'o', 'n', 'e' ]

def msmTok : List Char := [ 'm', 's', 'm' ]

def fftTok : List Char := [ 'f', 'f', 't' ]

/-- One task record, mirroring the Python dict pushed on a start line. -/
structure LogTask where
  task_name : List Char
  start_time : Int
  end_time : Int
  duration : Int
  msm : List (List Char × Nat)
  fft : List (List Char × Nat)
deriving DecidableEq, Repr

/-- The Python exceptions that `parse_logs` can raise. -/
inductive PyErr where
  | valueError
  | indexError
  | keyError
deriving DecidableEq, Repr

/-- The mutable state of the `parse_logs` loop. -/
structure PState where
  active_tasks : List LogTask
  all_tasks : List LogTask
deriving DecidableEq, Repr

/-- The update `if k in d: d[k] += 1 else: d[k] = 1` on an insertion-ordered dict with
unique keys: bump the count in place, or append the key with count 1. -/
def dictBump : List (List Char × Nat) → List Char → List (List Char × Nat)
  | [], k => [(k, 1)]
  | (k1, v) :: rest, k =>
    if k1 = k then (k1, v + 1) :: rest else (k1, v) :: dictBump rest k

/-- Dictionary lookup on the association-list dict. -/
def dictGet? : List (List Char × Nat) → List Char → Option Nat
  | [], _ => none
  | (k1, v) :: rest, k => if k1 = k then some v else dictGet? rest k

/-- The timestamp the code extracts from a line beginning with "[T":
`int(line.split("]")[0][3:])`. -/
def lineTimestamp (line : List Char) : Option Int :=
  pyInt (((pySplitOn rbrSep line).headD []).drop 3)

/-- One iteration of the `for line in f` body of `parse_logs`. -/
def ingest (st : PState) (line : List Char) : Except PyErr PState :=
  if startsWith tMark line then
    match lineTimestamp line with
    | none => .error .valueError
    | some current_time =>
      if containsSub startTok line then
        match (pySplitOn startSep line)[1]? with
        | none => .error .indexError
        | some seg =>
          .ok ⟨st.active_tasks ++ [⟨seg.dropLast, current_time, -1, -1, [], []⟩],
               st.all_tasks⟩
      else if containsSub doneTok line then
        match st.active_tasks.getLast? with
        | none => .error .indexError
        | some top =>
          .ok ⟨st.active_tasks.dropLast,
               st.all_tasks ++ [⟨top.task_name, top.start_time, current_time,
                                 current_time - top.start_time, top.msm, top.fft⟩]⟩
      else
        .ok st
  else if startsWith msmTok line || startsWith fftTok line then
    match pySplitWs line with
    | [operation, size] =>
      match st.active_tasks.getLast? with
      | none => .ok st
      | some top =>
        if operation = msmTok then
          .ok ⟨st.active_tasks.dropLast ++
                 [⟨top.task_name, top.start_time, top.end_time, top.duration,
                   dictBump top.msm size, top.fft⟩],
               st.all_tasks⟩
        else if operation = fftTok then
          .ok ⟨st.active_tasks.dropLast ++
                 [⟨top.task_name, top.start_time, top.end_time, top.duration,
                   top.msm, dictBump top.fft size⟩],
               st.all_tasks⟩
        else
          .error .keyError
    | _ => .error .valueError
  else
    .ok st

/-- The whole `for line in f` loop of `parse_logs`, from a given state; an
uncaught exception aborts the remainder of the run. -/
def parse_logs : List (List Char) → PState → Except PyErr PState
  | [], st => .ok st
  | l :: ls, st =>
    match ingest st l with
    | .error e => .error e
    | .ok st1 => parse_logs ls st1

/-- The state at the top of `parse_logs`: two empty lists. -/
def initState : PState := ⟨[], []⟩

/-- The sort key `task["duration"] * -1`. -/
def sortKey (t : LogTask) : Int := t.duration * -1

/-- The comparison of `sorted(all_tasks, key=...)`: ascending sort key,
that is descending duration. -/
def taskLe (a b : LogTask) : Prop := sortKey a ≤ sortKey b

instance : DecidableRel taskLe := fun _ _ => Int.decLe _ _

instance : IsTotal LogTask taskLe := ⟨fun _ _ => Int.le_total _ _⟩

instance : IsTrans LogTask taskLe := ⟨fun _ _ _ hab hbc => le_trans hab hbc⟩

/-- The call `sorted(all_tasks, key=lambda task: task["duration"] * -1)`.  Python's
`sorted` is specified as a stable sort, and a stable sort by a key is unique
as a function; it is modelled by Mathlib's stable `List.insertionSort`. -/
def pySorted (ts : List LogTask) : List LogTask := List.insertionSort taskLe ts

/-- The final query loop of `parse_logs`: the first task of the sorted list
whose name equals the query name (the source hardcodes the query name
"committing to advice columns"). -/
def slowest (name : List Char) (ts : List LogTask) : Option LogTask :=
  (pySorted ts).find? (fun t => decide (t.task_name = name))

/-- Spec-side reading of a timed line's timestamp text: the text immediately
after the literal "[T" and before the first "]". -/
def specTimestampText (line : List Char) : List Char :=
  ((pySplitOn rbrSep line).headD []).drop 2

/-- Spec-side timestamp of a timed line: the integer immediately after the
literal `T`, terminated by `]`. -/
def specTimestamp (line : List Char) : Option Int :=
  pyInt (specTimestampText line)

/-- Rejoin split fields with the separator (used to express "all the text
after the first occurrence of the separator"). -/
def joinSep (sep : List Char) : List (List Char) → List Char
  | [] => []
  | [x] => x
  | x :: y :: rest => x ++ sep ++ joinSep sep (y :: rest)

/-- Spec-side reading for claim C9: all the text after the first occurrence
of "Start " in the line. -/
def textAfterFirstStart (line : List Char) : List Char :=
  joinSep startSep ((pySplitOn startSep line).drop 1)

/-- Start-event lines: begin with "[T" and contain "Start". -/
def isStartLine (line : List Char) : Bool :=
  startsWith tMark line && containsSub startTok line

/-- Completion-event lines: begin with "[T", contain "Done", no "Start". -/
def isDoneLine (line : List Char) : Bool :=
  startsWith tMark line && !containsSub startTok line && containsSub doneTok line

def countStartLines (lines : List (List Char)) : Nat :=
  (lines.filter isStartLine).length

def countDoneLines (lines : List (List Char)) : Nat :=
  (lines.filter isDoneLine).length

/-- A log is well nested when every start has a matching completion: the
start and done counts balance overall and no prefix has more dones than
starts. -/
def wellNested (lines : List (List Char)) : Prop :=
  countStartLines lines = countDoneLines lines ∧
    ∀ n ≤ lines.length, countDoneLines (lines.take n) ≤ countStartLines (lines.take n)

instance (lines : List (List Char)) : Decidable (wellNested lines) := by
  unfold wellNested
  infer_instance

/-! ### Helper lemmas -/

/-- A line that begins with "msm" or "fft" does not begin with "[T". -/
theorem op_prefix_not_tMark (line : List Char)
    (h : (startsWith msmTok line || startsWith fftTok line) = true) :
    startsWith tMark line = false := by
  cases line with
  | nil => simp [startsWith, msmTok, fftTok, List.isPrefixOf] at h
  | cons c rest =>
    simp only [startsWith, msmTok, fftTok, tMark, List.isPrefixOf, Bool.or_eq_true,
      Bool.and_eq_true, beq_iff_eq] at h ⊢
    rcases h with ⟨hc, _⟩ | ⟨hc, _⟩ <;> subst hc <;> simp

/-- An uncaught exception raised on one line aborts the whole run. -/
theorem parse_logs_append_error :
    ∀ (pre : List (List Char)) (st st1 : PState) (l : List Char)
      (post : List (List Char)) (e : PyErr),
      parse_logs pre st = .ok st1 → ingest st1 l = .error e →
      parse_logs (pre ++ l :: post) st = .error e
  | [], st, st1, l, post, e, hpre, herr => by
    cases hpre
    simp [parse_logs, herr]
  | p :: ps, st, st1, l, post, e, hpre, herr => by
    simp only [parse_logs] at hpre ⊢
    cases hstep : ingest st p with
    | error e1 => rw [hstep] at hpre; cases hpre
    | ok st2 =>
      rw [hstep] at hpre
      exact parse_logs_append_error ps st2 st1 l post e hpre herr

/-- Reduction of `ingest` on a start line. -/
theorem ingest_start (st : PState) (line : List Char) (ts : Int) (seg : List Char)
    (h1 : startsWith tMark line = true) (h2 : lineTimestamp line = some ts)
    (h3 : containsSub startTok line = true)
    (h4 : (pySplitOn startSep line)[1]? = some seg) :
    ingest st line =
      .ok ⟨st.active_tasks ++ [⟨seg.dropLast, ts, -1, -1, [], []⟩], st.all_tasks⟩ := by
  simp [ingest, h1, h2, h3, h4]

/-- Reduction of `ingest` on a completion line with an open task. -/
theorem ingest_done (st : PState) (line : List Char) (ts : Int) (top : LogTask)
    (h1 : startsWith tMark line = true) (h2 : lineTimestamp line = some ts)
    (h3 : containsSub startTok line = false)
    (h4 : containsSub doneTok line = true)
    (h5 : st.active_tasks.getLast? = some top) :
    ingest st line =
      .ok ⟨st.active_tasks.dropLast,
           st.all_tasks ++ [⟨top.task_name, top.start_time, ts,
                             ts - top.start_time, top.msm, top.fft⟩]⟩ := by
  simp [ingest, h1, h2, h3, h4, h5]

/-- Reduction of `ingest` on a completion line with no open task. -/
theorem ingest_done_empty (st : PState) (line : List Char) (ts : Int)
    (h1 : startsWith tMark line = true) (h2 : lineTimestamp line = some ts)
    (h3 : containsSub startTok line = false)
    (h4 : containsSub doneTok line = true)
    (h5 : st.active_tasks = []) :
    ingest st line = .error .indexError := by
  simp [ingest, h1, h2, h3, h4, h5]

/-- Reduction of `ingest` on a line matched by no branch. -/
theorem ingest_other (st : PState) (line : List Char)
    (h1 : startsWith tMark line = false)
    (h2 : startsWith msmTok line = false)
    (h3 : startsWith fftTok line = false) :
    ingest st line = .ok st := by
  simp [ingest, h1, h2, h3]

/-- Lookup after a bump at the bumped key. -/
theorem dictGet?_bump_self :
    ∀ (d : List (List Char × Nat)) (k : List Char),
      dictGet? (dictBump d k) k = some ((dictGet? d k).getD 0 + 1)
  | [], k => by simp [dictBump, dictGet?]
  | (k1, v) :: rest, k => by
    by_cases h : k1 = k
    · subst h
      simp [dictBump, dictGet?]
    · simp [dictBump, dictGet?, h, dictGet?_bump_self rest k]

/-- Lookup after a bump at any other key. -/
theorem dictGet?_bump_other :
    ∀ (d : List (List Char × Nat)) (k k2 : List Char), k2 ≠ k →
      dictGet? (dictBump d k) k2 = dictGet? d k2
  | [], k, k2, hne => by
    simp [dictBump, dictGet?]
    exact fun h => hne h.symm
  | (k1, v) :: rest, k, k2, hne => by
    by_cases h : k1 = k
    · subst h
      have : ¬ k1 = k2 := fun h2 => hne (h2.symm)
      simp [dictBump, dictGet?, this]
    · by_cases h2 : k1 = k2
      · subst h2
        simp [dictBump, dictGet?, h]
      · simp [dictBump, dictGet?, h, h2, dictGet?_bump_other rest k k2 hne]

/-- Reduction of `ingest` on an msm operation line with an open task. -/
theorem ingest_op_msm (st : PState) (line size : List Char) (top : LogTask)
    (h1 : (startsWith msmTok line || startsWith fftTok line) = true)
    (h2 : pySplitWs line = [msmTok, size])
    (h5 : st.active_tasks.getLast? = some top) :
    ingest st line =
      .ok ⟨st.active_tasks.dropLast ++
             [⟨top.task_name, top.start_time, top.end_time, top.duration,
               dictBump top.msm size, top.fft⟩],
           st.all_tasks⟩ := by
  have h0 := op_prefix_not_tMark line h1
  simp [ingest, h0, h1, h2, h5]

/-- Reduction of `ingest` on an fft operation line with an open task. -/
theorem ingest_op_fft (st : PState) (line size : List Char) (top : LogTask)
    (h1 : (startsWith msmTok line || startsWith fftTok line) = true)
    (h2 : pySplitWs line = [fftTok, size])
    (h5 : st.active_tasks.getLast? = some top) :
    ingest st line =
      .ok ⟨st.active_tasks.dropLast ++
             [⟨top.task_name, top.start_time, top.end_time, top.duration,
               top.msm, dictBump top.fft size⟩],
           st.all_tasks⟩ := by
  have h0 := op_prefix_not_tMark line h1
  have hne : fftTok ≠ msmTok := by decide
  simp [ingest, h0, h1, h2, h5, hne]

/-- Reduction of `ingest` on an operation line whose first token is neither
"msm" nor "fft", with an open task: the dict access raises `KeyError`. -/
theorem ingest_op_key_error (st : PState) (line op size : List Char) (top : LogTask)
    (h1 : (startsWith msmTok line || startsWith fftTok line) = true)
    (h2 : pySplitWs line = [op, size])
    (hm : op ≠ msmTok) (hf : op ≠ fftTok)
    (h5 : st.active_tasks.getLast? = some top) :
    ingest st line = .error .keyError := by
  have h0 := op_prefix_not_tMark line h1
  simp [ingest, h0, h1, h2, h5, hm, hf]

/-- Reduction of `ingest` on an operation line with no open task. -/
theorem ingest_op_empty (st : PState) (line op size : List Char)
    (h1 : (startsWith msmTok line || startsWith fftTok line) = true)
    (h2 : pySplitWs line = [op, size])
    (h5 : st.active_tasks.getLast? = none) :
    ingest st line = .ok st := by
  have h0 := op_prefix_not_tMark line h1
  simp [ingest, h0, h1, h2, h5]

/-- Reduction of `ingest` on an operation line that does not split into
exactly two tokens: the tuple unpacking raises `ValueError`. -/
theorem ingest_op_value_error (st : PState) (line : List Char)
    (h1 : (startsWith msmTok line || startsWith fftTok line) = true)
    (h2 : (pySplitWs line).length ≠ 2) :
    ingest st line = .error .valueError := by
  have h0 := op_prefix_not_tMark line h1
  rcases hs : pySplitWs line with _ | ⟨a, _ | ⟨b, _ | t⟩⟩
  · simp [ingest, h0, h1, hs]
  · simp [ingest, h0, h1, hs]
  · rw [hs] at h2; simp at h2
  · simp [ingest, h0, h1, hs]

/-- Joint bookkeeping facts about one successful `ingest` step: how the
stack depth and the closed-task count move with the line shape, and that
any newly closed task satisfies the duration equation. -/
theorem ingest_ok_shape (st st1 : PState) (l : List Char) (h : ingest st l = .ok st1) :
    st1.active_tasks.length + (if isDoneLine l then 1 else 0)
        = st.active_tasks.length + (if isStartLine l then 1 else 0) ∧
      st1.all_tasks.length = st.all_tasks.length + (if isDoneLine l then 1 else 0) ∧
      ∀ t ∈ st1.all_tasks, t ∈ st.all_tasks ∨ t.duration = t.end_time - t.start_time := by
  cases h1 : startsWith tMark l with
  | true =>
    cases h2 : lineTimestamp l with
    | none => simp [ingest, h1, h2] at h
    | some ts =>
      cases h3 : containsSub startTok l with
      | true =>
        cases h4 : (pySplitOn startSep l)[1]? with
        | none => simp [ingest, h1, h2, h3, h4] at h
        | some seg =>
          rw [ingest_start st l ts seg h1 h2 h3 h4] at h
          cases h
          refine ⟨?_, ?_, ?_⟩
          · simp [isStartLine, isDoneLine, h1, h3]
          · simp [isStartLine, isDoneLine, h1, h3]
          · exact fun t ht => Or.inl ht
      | false =>
        cases h4 : containsSub doneTok l with
        | true =>
          cases h5 : st.active_tasks.getLast? with
          | none => simp [ingest, h1, h2, h3, h4, h5] at h
          | some top =>
            rw [ingest_done st l ts top h1 h2 h3 h4 h5] at h
            cases h
            have hne : st.active_tasks ≠ [] := by
              intro he; rw [he] at h5; simp at h5
            have hpos : 0 < st.active_tasks.length := List.length_pos.mpr hne
            have hd : isDoneLine l = true := by simp [isDoneLine, h1, h3, h4]
            have hst : isStartLine l = false := by simp [isStartLine, h1, h3]
            refine ⟨?_, ?_, ?_⟩
            · rw [hd, hst]
              simp [List.length_dropLast]
              omega
            · rw [hd]
              simp
            · intro t ht
              rcases List.mem_append.mp ht with hl | hr
              · exact Or.inl hl
              · rcases List.mem_singleton.mp hr with rfl
                right
                simp
        | false =>
          simp only [ingest, h1, h2, h3, h4, if_true, if_false, Bool.false_eq_true] at h
          cases h
          refine ⟨?_, ?_, fun t ht => Or.inl ht⟩ <;>
            simp [isStartLine, isDoneLine, h1, h3, h4]
  | false =>
    cases h2 : (startsWith msmTok l || startsWith fftTok l) with
    | true =>
      have hflags1 : isStartLine l = false := by simp [isStartLine, h1]
      have hflags2 : isDoneLine l = false := by simp [isDoneLine, h1]
      rcases hs : pySplitWs l with _ | ⟨op, _ | ⟨size, _ | t⟩⟩
      · simp [ingest, h1, h2, hs] at h
      · simp [ingest, h1, h2, hs] at h
      · cases h5 : st.active_tasks.getLast? with
        | none =>
          simp only [ingest, h1, h2, hs, h5, if_true, if_false, Bool.false_eq_true] at h
          cases h
          exact ⟨by simp [hflags1, hflags2], by simp [hflags2], fun t ht => Or.inl ht⟩
        | some top =>
          have hne : st.active_tasks ≠ [] := by
            intro he; rw [he] at h5; simp at h5
          have hpos : 0 < st.active_tasks.length := List.length_pos.mpr hne
          by_cases hm : op = msmTok
          · subst hm
            rw [ingest_op_msm st l size top h2 hs h5] at h
            cases h
            refine ⟨?_, ?_, fun t ht => Or.inl ht⟩
            · rw [hflags1, hflags2]
              simp [List.length_dropLast]
              omega
            · rw [hflags2]
              simp
          · by_cases hf : op = fftTok
            · subst hf
              rw [ingest_op_fft st l size top h2 hs h5] at h
              cases h
              refine ⟨?_, ?_, fun t ht => Or.inl ht⟩
              · rw [hflags1, hflags2]
                simp [List.length_dropLast]
                omega
              · rw [hflags2]
                simp
            · rw [ingest_op_key_error st l op size top h2 hs hm hf h5] at h
              cases h
      · simp [ingest, h1, h2, hs] at h
    | false =>
      have h3 : startsWith msmTok l = false := by
        rcases Bool.or_eq_false_iff.mp h2 with ⟨ha, _⟩; exact ha
      have h4 : startsWith fftTok l = false := by
        rcases Bool.or_eq_false_iff.mp h2 with ⟨_, hb⟩; exact hb
      rw [ingest_other st l h1 h3 h4] at h
      cases h
      refine ⟨?_, ?_, fun t ht => Or.inl ht⟩ <;>
        simp [isStartLine, isDoneLine, h1]

/-- Run-level bookkeeping: over any successful run, the stack depth moves by
the start/done line counts, the closed-task collection grows by the done
count, and all newly closed tasks satisfy the duration equation. -/
theorem parse_logs_shape :
    ∀ (lines : List (List Char)) (st st1 : PState),
      parse_logs lines st = .ok st1 →
      st1.active_tasks.length + countDoneLines lines
          = st.active_tasks.length + countStartLines lines ∧
        st1.all_tasks.length = st.all_tasks.length + countDoneLines lines ∧
        ∀ t ∈ st1.all_tasks, t ∈ st.all_tasks ∨ t.duration = t.end_time - t.start_time
  | [], st, st1, h => by
    cases h
    simp [countStartLines, countDoneLines]
    exact fun t ht => Or.inl ht
  | l :: ls, st, st1, h => by
    simp only [parse_logs] at h
    cases hstep : ingest st l with
    | error e => rw [hstep] at h; cases h
    | ok st2 =>
      rw [hstep] at h
      obtain ⟨ha1, ha2, ha3⟩ := ingest_ok_shape st st2 l hstep
      obtain ⟨hb1, hb2, hb3⟩ := parse_logs_shape ls st2 st1 h
      have hcs : countStartLines (l :: ls)
          = (if isStartLine l then 1 else 0) + countStartLines ls := by
        simp only [countStartLines, List.filter_cons]
        cases hi : isStartLine l
        · simp
        · simp
          omega
      have hcd : countDoneLines (l :: ls)
          = (if isDoneLine l then 1 else 0) + countDoneLines ls := by
        simp only [countDoneLines, List.filter_cons]
        cases hi : isDoneLine l
        · simp
        · simp
          omega
      refine ⟨?_, ?_, ?_⟩
      · rw [hcs, hcd]; omega
      · rw [hcd]; omega
      · intro t ht
        rcases hb3 t ht with h2 | h2
        · rcases ha3 t h2 with h3 | h3
          · exact Or.inl h3
          · exact Or.inr h3
        · exact Or.inr h2

/-- The function `find?` returns the head of the filtered list. -/
theorem find_eq_head_filter {α : Type} (p : α → Bool) :
    ∀ l : List α, l.find? p = (l.filter p).head? := by
  intro l
  induction l with
  | nil => rfl
  | cons a l ih =>
    cases h : p a
    · rw [List.find?_cons_of_neg _ (by simp [h]), List.filter_cons_of_neg (by simp [h])]
      exact ih
    · rw [List.find?_cons_of_pos _ h, List.filter_cons_of_pos h]
      rfl

/-- If `a` is below every element of `l`, ordered insertion is `cons`. -/
theorem orderedInsert_eq_cons (a : LogTask) (l : List LogTask)
    (h : ∀ w ∈ l, taskLe a w) : List.orderedInsert taskLe a l = a :: l := by
  cases l with
  | nil => rfl
  | cons b t => exact List.orderedInsert_of_le taskLe t (h b (List.mem_cons_self b t))

/-- Ordered insertion walks past a smaller head. -/
theorem orderedInsert_cons_of_not_le (a b : LogTask) (t : List LogTask)
    (hab : ¬ taskLe a b) :
    List.orderedInsert taskLe a (b :: t) = b :: List.orderedInsert taskLe a t := by
  rw [List.orderedInsert, if_neg hab]

/-- Filtering commutes with ordered insertion into a sorted list. -/
theorem filter_orderedInsert (p : LogTask → Bool) (a : LogTask) :
    ∀ l : List LogTask, List.Sorted taskLe l →
      (List.orderedInsert taskLe a l).filter p
        = if p a then List.orderedInsert taskLe a (l.filter p) else l.filter p
  | [], _ => by
    cases h : p a <;> simp [List.orderedInsert_nil, List.filter_cons, h]
  | b :: t, hs => by
    have hst : List.Sorted taskLe t := hs.of_cons
    have hmem : ∀ w ∈ t, taskLe b w := fun w hw => List.rel_of_sorted_cons hs w hw
    by_cases hab : taskLe a b
    · rw [List.orderedInsert_of_le _ _ hab]
      cases h : p a
      · simp [List.filter_cons, h]
      · have hall : ∀ w ∈ (b :: t).filter p, taskLe a w := by
          intro w hw
          rcases List.mem_cons.mp (List.mem_of_mem_filter hw) with rfl | hwt
          · exact hab
          · exact le_trans hab (hmem w hwt)
        rw [orderedInsert_eq_cons a _ hall]
        simp [List.filter_cons, h]
    · rw [orderedInsert_cons_of_not_le a b t hab]
      cases h : p a
      · cases hb : p b <;>
          simp [List.filter_cons, h, hb, filter_orderedInsert p a t hst]
      · cases hb : p b
        · simp [List.filter_cons, h, hb, filter_orderedInsert p a t hst]
        · rw [List.filter_cons, List.filter_cons]
          simp only [hb, if_true]
          rw [filter_orderedInsert p a t hst]
          simp only [h, if_true]
          rw [orderedInsert_cons_of_not_le a b _ hab]

/-- Filtering commutes with the stable insertion sort. -/
theorem filter_insertionSort (p : LogTask → Bool) :
    ∀ l : List LogTask,
      (List.insertionSort taskLe l).filter p = List.insertionSort taskLe (l.filter p)
  | [] => rfl
  | a :: t => by
    have hs : List.Sorted taskLe (List.insertionSort taskLe t) :=
      List.sorted_insertionSort taskLe t
    rw [List.insertionSort, filter_orderedInsert p a _ hs]
    cases h : p a
    · rw [if_neg (by simp), List.filter_cons_of_neg (by simp [h])]
      exact filter_insertionSort p t
    · rw [if_pos rfl, List.filter_cons_of_pos h, List.insertionSort,
        filter_insertionSort p t]

/-! ### Concrete inputs used by witnesses and counterexamples -/

def lineStartA : List Char := "[T10] Start a\n".toList

def lineDoneB : List Char := "[T25] Done\n".toList

def lineStartDone : List Char := "[T10] Start Done\n".toList

def lineDone5 : List Char := "[T5] Done\n".toList

def lineDone50 : List Char := "[T50] Done\n".toList

def lineMsm : List Char := "msm 10\n".toList

def lineMsma : List Char := "msma 1\n".toList

def lineHello : List Char := "hello\n".toList

def lineTx1 : List Char := "[Tx1] hi\n".toList

def lineTxy : List Char := "[Txy] oof\n".toList

def lineMsmBare : List Char := "msm\n".toList

def lineDoubleStart : List Char := "[T10] Start a Start b\n".toList

def taskO : LogTask := ⟨[ 'o' ], 0, -1, -1, [], []⟩

def wOpen1 : LogTask := ⟨[ 'a' ], 0, -1, -1, [], []⟩

def wTask1 : LogTask := ⟨[ 'a' ], 0, 5, 5, [], []⟩

def wtA : LogTask := ⟨[ 'w' ], 0, 4, 4, [], []⟩

def wtB : LogTask := ⟨[ 'w' ], 10, 14, 4, [], []⟩

def linesW8 : List (List Char) := [lineStartA, lineDoneB]

deriving instance DecidableEq for Except

/-! ### Claims -/

/-- Claim C1, counterexample to the original statement: on the log
`[T10] Start a` / `[T25] Done` the closed task records `start_time = 0` and
`end_time = 5`, while the integers immediately after the literal `T`
(terminated by `]`) are 10 and 25: the code drops three leading characters,
not two, before parsing the timestamp. -/
theorem claim_C1_counterexample :
    parse_logs [lineStartA, lineDoneB] initState
        = .ok ⟨[], [⟨[ 'a' ], 0, 5, 5, [], []⟩]⟩ ∧
      specTimestamp lineStartA = some 10 ∧
      specTimestamp lineDoneB = some 25 ∧
      (0 : Int) ≠ 10 ∧ (5 : Int) ≠ 25 := by
  refine ⟨by decide, by decide, by decide, by decide, by decide⟩

/-- Claim C1 as amended: for every closed task `duration = end_time -
start_time`, and the recorded start/end times are the timestamps the code
extracts from the corresponding lines, namely
`int(line.split("]")[0][3:])` (the text after the first three characters of
the line, up to the first `]`), not the integer immediately after `T`. -/
theorem claim_C1_amended :
    (∀ (lines : List (List Char)) (st1 : PState),
        parse_logs lines initState = .ok st1 →
        ∀ t ∈ st1.all_tasks, t.duration = t.end_time - t.start_time) ∧
      (∀ (st : PState) (line : List Char) (ts : Int) (seg : List Char),
        startsWith tMark line = true → lineTimestamp line = some ts →
        containsSub startTok line = true →
        (pySplitOn startSep line)[1]? = some seg →
        ingest st line =
          .ok ⟨st.active_tasks ++ [⟨seg.dropLast, ts, -1, -1, [], []⟩],
               st.all_tasks⟩) ∧
      (∀ (st : PState) (line : List Char) (ts : Int) (top : LogTask),
        startsWith tMark line = true → lineTimestamp line = some ts →
        containsSub startTok line = false → containsSub doneTok line = true →
        st.active_tasks.getLast? = some top →
        ingest st line =
          .ok ⟨st.active_tasks.dropLast,
               st.all_tasks ++ [⟨top.task_name, top.start_time, ts,
                                 ts - top.start_time, top.msm, top.fft⟩]⟩) := by
  refine ⟨?_, ingest_start, ingest_done⟩
  intro lines st1 h t ht
  rcases (parse_logs_shape lines initState st1 h).2.2 t ht with h2 | h2
  · simp [initState] at h2
  · exact h2

/-- Claim C1 witness: the amended theorem applied to the concrete two-line
log above. -/
theorem claim_C1_witness :
    wTask1.duration = wTask1.end_time - wTask1.start_time ∧
      ingest initState lineStartA
        = .ok ⟨initState.active_tasks ++ [⟨([ 'a', '\n' ]).dropLast, 0, -1, -1, [], []⟩],
               initState.all_tasks⟩ ∧
      ingest (PState.mk [wOpen1] []) lineDoneB
        = .ok ⟨(PState.mk [wOpen1] []).active_tasks.dropLast,
               (PState.mk [wOpen1] []).all_tasks ++
                 [⟨wOpen1.task_name, wOpen1.start_time, 5,
                   5 - wOpen1.start_time, wOpen1.msm, wOpen1.fft⟩]⟩ :=
  ⟨claim_C1_amended.1 [lineStartA, lineDoneB] (PState.mk [] [wTask1]) (by decide)
      wTask1 (by decide),
   claim_C1_amended.2.1 initState lineStartA 0 [ 'a', '\n' ]
      (by decide) (by decide) (by decide) (by decide),
   claim_C1_amended.2.2 (PState.mk [wOpen1] []) lineDoneB 5 wOpen1
      (by decide) (by decide) (by decide) (by decide) (by decide)⟩

/-- Claim C2: among the closed tasks, if exactly two carry the query name
and their durations are equal, the stable descending sort by duration plus
first-match lookup returns the one that was appended (completed) earlier. -/
theorem claim_C2 (name : List Char) (ts : List LogTask) (a b : LogTask)
    (hf : ts.filter (fun t => decide (t.task_name = name)) = [a, b])
    (hd : a.duration = b.duration) :
    slowest name ts = some a := by
  have hle : taskLe a b := by simp [taskLe, sortKey, hd]
  rw [slowest, pySorted, find_eq_head_filter, filter_insertionSort, hf]
  simp only [List.insertionSort, List.orderedInsert_nil]
  rw [List.orderedInsert_of_le _ _ hle]
  rfl

/-- Claim C2 witness: two closed tasks named "w" with equal durations; the
query returns the first of them. -/
theorem claim_C2_witness :
    ([wtA, wtB].filter (fun t => decide (t.task_name = [ 'w' ])) = [wtA, wtB]) ∧
      slowest [ 'w' ] [wtA, wtB] = some wtA :=
  ⟨by decide, claim_C2 [ 'w' ] [wtA, wtB] wtA wtB (by decide) (by decide)⟩

/-- Claim C3, counterexample to the original statement: the line
`[T10] Start Done` begins with `[T` and contains `Done`, yet with one task
open it does not close it — the `Start` branch wins and a new task named
"Done" is pushed, leaving the closed collection empty. -/
theorem claim_C3_counterexample :
    startsWith tMark lineStartDone = true ∧
      containsSub doneTok lineStartDone = true ∧
      ingest (PState.mk [taskO] []) lineStartDone
        = .ok ⟨[taskO, ⟨doneTok, 0, -1, -1, [], []⟩], []⟩ := by
  refine ⟨by decide, by decide, by decide⟩

/-- Claim C3 as amended: a line beginning with `[T` whose code-extracted
timestamp parses, which contains `Done` and does not contain `Start`,
ingested while at least one task is open, closes the innermost open task:
pops it, sets its end time to the line's timestamp, and appends it to the
closed collection. -/
theorem claim_C3_amended (st : PState) (line : List Char) (ts : Int) (top : LogTask)
    (h1 : startsWith tMark line = true) (h2 : lineTimestamp line = some ts)
    (h3 : containsSub startTok line = false) (h4 : containsSub doneTok line = true)
    (h5 : st.active_tasks.getLast? = some top) :
    ingest st line =
      .ok ⟨st.active_tasks.dropLast,
           st.all_tasks ++ [⟨top.task_name, top.start_time, ts,
                             ts - top.start_time, top.msm, top.fft⟩]⟩ :=
  ingest_done st line ts top h1 h2 h3 h4 h5

/-- Claim C3 witness: the amended theorem applied to `[T25] Done` with one
open task. -/
theorem claim_C3_witness :
    ingest (PState.mk [taskO] []) lineDoneB
      = .ok ⟨(PState.mk [taskO] []).active_tasks.dropLast,
             (PState.mk [taskO] []).all_tasks ++
               [⟨taskO.task_name, taskO.start_time, 5,
                 5 - taskO.start_time, taskO.msm, taskO.fft⟩]⟩ :=
  claim_C3_amended (PState.mk [taskO] []) lineDoneB 5 taskO
    (by decide) (by decide) (by decide) (by decide) (by decide)

/-- Claim C4, counterexample to the original statement: `[T5] Done` is a
completion line in the claim's sense (begins with `[T`, contains `Done`, is
not a start line), yet with no open task it fails with `ValueError` — the
code's 3-character drop leaves an empty timestamp text — not with the
claimed out-of-range index access. -/
theorem claim_C4_counterexample :
    startsWith tMark lineDone5 = true ∧
      containsSub doneTok lineDone5 = true ∧
      containsSub startTok lineDone5 = false ∧
      ingest initState lineDone5 = .error .valueError ∧
      PyErr.valueError ≠ PyErr.indexError := by
  refine ⟨by decide, by decide, by decide, by decide, by decide⟩

/-- Claim C4 as amended: a completion line whose code-extracted timestamp
parses (begins with `[T`, contains `Done`, no `Start`), ingested with no
open task, fails with an out-of-range index access; the error is fatal —
it aborts any run containing the line at that point. -/
theorem claim_C4_amended (st : PState) (line : List Char) (ts : Int)
    (h1 : startsWith tMark line = true) (h2 : lineTimestamp line = some ts)
    (h3 : containsSub startTok line = false) (h4 : containsSub doneTok line = true)
    (h5 : st.active_tasks = []) :
    ingest st line = .error .indexError ∧
      ∀ (pre post : List (List Char)),
        parse_logs pre initState = .ok st →
        parse_logs (pre ++ line :: post) initState = .error .indexError := by
  have herr : ingest st line = .error .indexError :=
    ingest_done_empty st line ts h1 h2 h3 h4 h5
  exact ⟨herr, fun pre post hpre =>
    parse_logs_append_error pre initState st line post _ hpre herr⟩

/-- Claim C4 witness: the amended theorem applied to `[T50] Done` on the
empty initial state, as a one-line run. -/
theorem claim_C4_witness :
    ingest initState lineDone50 = .error .indexError ∧
      parse_logs ([] ++ lineDone50 :: []) initState = .error .indexError :=
  ⟨(claim_C4_amended initState lineDone50 0
      (by decide) (by decide) (by decide) (by decide) rfl).1,
   (claim_C4_amended initState lineDone50 0
      (by decide) (by decide) (by decide) (by decide) rfl).2 [] [] rfl⟩

/-- Claim C5: an operation-count line (first token "msm" or "fft") with a
non-empty stack modifies only the topmost open task — bumping the size
counter of the matching kind, leaving its other fields, the rest of the
stack and the closed collection unchanged — and with an empty stack it
changes nothing; the bump increments the looked-up count by one,
initializing to one when absent, and leaves all other keys unchanged. -/
theorem claim_C5 (st : PState) (line op size : List Char)
    (h1 : (startsWith msmTok line || startsWith fftTok line) = true)
    (h2 : pySplitWs line = [op, size])
    (hop : op = msmTok ∨ op = fftTok) :
    (st.active_tasks = [] → ingest st line = .ok st) ∧
      (∀ (rest : List LogTask) (top : LogTask),
        st.active_tasks = rest ++ [top] →
        ingest st line =
          .ok ⟨rest ++ [⟨top.task_name, top.start_time, top.end_time, top.duration,
                          (if op = msmTok then dictBump top.msm size else top.msm),
                          (if op = fftTok then dictBump top.fft size else top.fft)⟩],
               st.all_tasks⟩) ∧
      (∀ (d : List (List Char × Nat)) (k : List Char),
        dictGet? (dictBump d k) k = some ((dictGet? d k).getD 0 + 1) ∧
        ∀ k2, k2 ≠ k → dictGet? (dictBump d k) k2 = dictGet? d k2) := by
  have hmf : msmTok ≠ fftTok := by decide
  refine ⟨?_, ?_, fun d k => ⟨dictGet?_bump_self d k,
    fun k2 hk => dictGet?_bump_other d k k2 hk⟩⟩
  · intro he
    exact ingest_op_empty st line op size h1 h2 (by rw [he]; rfl)
  · intro rest top hsplit
    have h5 : st.active_tasks.getLast? = some top := by
      rw [hsplit]; exact List.getLast?_concat rest
    have hfm : fftTok ≠ msmTok := by decide
    have hdrop : st.active_tasks.dropLast = rest := by
      rw [hsplit]; simp
    rcases hop with rfl | rfl
    · rw [ingest_op_msm st line size top h1 h2 h5, hdrop]
      rw [if_pos rfl, if_neg hmf]
    · rw [ingest_op_fft st line size top h1 h2 h5, hdrop]
      rw [if_neg hfm, if_pos rfl]

/-- Claim C5 witness: `msm 10` ingested over a single open task. -/
theorem claim_C5_witness :
    ingest (PState.mk [taskO] []) lineMsm
        = .ok ⟨[] ++ [⟨taskO.task_name, taskO.start_time, taskO.end_time, taskO.duration,
                        (if msmTok = msmTok then dictBump taskO.msm [ '1', '0' ] else taskO.msm),
                        (if msmTok = fftTok then dictBump taskO.fft [ '1', '0' ] else taskO.fft)⟩],
               (PState.mk [taskO] []).all_tasks⟩ ∧
      dictGet? (dictBump taskO.msm [ '1', '0' ]) [ '1', '0' ]
        = some ((dictGet? taskO.msm [ '1', '0' ]).getD 0 + 1) :=
  ⟨(claim_C5 (PState.mk [taskO] []) lineMsm msmTok [ '1', '0' ]
      (by decide) (by decide) (Or.inl rfl)).2.1 [] taskO rfl,
   ((claim_C5 (PState.mk [taskO] []) lineMsm msmTok [ '1', '0' ]
      (by decide) (by decide) (Or.inl rfl)).2.2 taskO.msm [ '1', '0' ]).1⟩

/-- Claim C6, counterexample to the original statement: `msma 1` has the
unrecognized op token "msma", but with one open task it is not ignored —
the dict access `active_tasks[-1]["msma"]` raises `KeyError`. -/
theorem claim_C6_counterexample :
    pySplitWs lineMsma = [[ 'm', 's', 'm', 'a' ], [ '1' ]] ∧
      ([ 'm', 's', 'm', 'a' ] : List Char) ≠ msmTok ∧
      ([ 'm', 's', 'm', 'a' ] : List Char) ≠ fftTok ∧
      ingest (PState.mk [taskO] []) lineMsma = .error .keyError := by
  refine ⟨by decide, by decide, by decide, by decide⟩

/-- Claim C6 as amended: a line beginning with none of `[T`, `msm`, `fft`
is ignored with no state change and no error; but a line that does begin
with `msm` or `fft` while its first whitespace token is not exactly "msm"
or "fft" raises an uncaught `KeyError` when the open-task stack is
non-empty (with an empty stack it is ignored). -/
theorem claim_C6_amended :
    (∀ (st : PState) (line : List Char),
        startsWith tMark line = false → startsWith msmTok line = false →
        startsWith fftTok line = false → ingest st line = .ok st) ∧
      (∀ (st : PState) (line op size : List Char) (top : LogTask),
        (startsWith msmTok line || startsWith fftTok line) = true →
        pySplitWs line = [op, size] → op ≠ msmTok → op ≠ fftTok →
        st.active_tasks.getLast? = some top →
        ingest st line = .error .keyError) ∧
      (∀ (st : PState) (line op size : List Char),
        (startsWith msmTok line || startsWith fftTok line) = true →
        pySplitWs line = [op, size] →
        st.active_tasks = [] → ingest st line = .ok st) :=
  ⟨ingest_other, ingest_op_key_error,
   fun st line op size h1 h2 he =>
     ingest_op_empty st line op size h1 h2 (by rw [he]; rfl)⟩

/-- Claim C6 witness: an ordinary unrecognized line is a no-op; `msma 1`
errors with one task open and is a no-op with the stack empty. -/
theorem claim_C6_witness :
    ingest (PState.mk [taskO] []) lineHello = .ok (PState.mk [taskO] []) ∧
      ingest (PState.mk [taskO] []) lineMsma = .error .keyError ∧
      ingest initState lineMsma = .ok initState :=
  ⟨claim_C6_amended.1 (PState.mk [taskO] []) lineHello
      (by decide) (by decide) (by decide),
   claim_C6_amended.2.1 (PState.mk [taskO] []) lineMsma
      [ 'm', 's', 'm', 'a' ] [ '1' ] taskO
      (by decide) (by decide) (by decide) (by decide) (by decide),
   claim_C6_amended.2.2 initState lineMsma [ 'm', 's', 'm', 'a' ] [ '1' ]
      (by decide) (by decide) rfl⟩

/-- Claim C7, counterexample to the original statement: in `[Tx1] hi` the
text between the `T` marker and the closing `]` is "x1", not an integer,
yet ingestion succeeds without error — the code parses the text after the
first three characters, here "1". -/
theorem claim_C7_counterexample :
    startsWith tMark lineTx1 = true ∧
      pyInt (specTimestampText lineTx1) = none ∧
      ingest initState lineTx1 = .ok initState := by
  refine ⟨by decide, by decide, by decide⟩

/-- Claim C7 as amended: a line beginning with `[T` whose text after the
first three characters and before the first `]` does not parse as an
integer raises an uncaught parse error that aborts the whole run; no
partial result is produced. -/
theorem claim_C7_amended (st : PState) (line : List Char)
    (h1 : startsWith tMark line = true) (h2 : lineTimestamp line = none) :
    ingest st line = .error .valueError ∧
      ∀ (pre post : List (List Char)),
        parse_logs pre initState = .ok st →
        parse_logs (pre ++ line :: post) initState = .error .valueError := by
  have herr : ingest st line = .error .valueError := by
    simp [ingest, h1, h2]
  exact ⟨herr, fun pre post hpre =>
    parse_logs_append_error pre initState st line post _ hpre herr⟩

/-- Claim C7 witness: `[Txy] oof` has an unparseable code timestamp; the
one-line run aborts. -/
theorem claim_C7_witness :
    ingest initState lineTxy = .error .valueError ∧
      parse_logs ([] ++ lineTxy :: []) initState = .error .valueError :=
  ⟨(claim_C7_amended initState lineTxy (by decide) (by decide)).1,
   (claim_C7_amended initState lineTxy (by decide) (by decide)).2 [] [] rfl⟩

/-- Claim C8: over any well-nested log whose run completes, the number of
start lines equals the number of done lines equals the number of closed
tasks, and the open-task stack ends empty. -/
theorem claim_C8 (lines : List (List Char)) (st1 : PState)
    (hrun : parse_logs lines initState = .ok st1)
    (hwn : wellNested lines) :
    st1.active_tasks = [] ∧
      st1.all_tasks.length = countStartLines lines ∧
      countStartLines lines = countDoneLines lines := by
  obtain ⟨h1, h2, _⟩ := parse_logs_shape lines initState st1 hrun
  obtain ⟨hbal, _⟩ := hwn
  simp only [initState, List.length_nil] at h1 h2
  have hlen : st1.active_tasks.length = 0 := by omega
  exact ⟨List.length_eq_zero.mp hlen, by omega, hbal⟩

/-- Claim C8 witness: the two-line balanced log `[T10] Start a` /
`[T25] Done`. -/
theorem claim_C8_witness :
    (PState.mk [] [wTask1]).active_tasks = [] ∧
      (PState.mk [] [wTask1]).all_tasks.length = countStartLines linesW8 ∧
      countStartLines linesW8 = countDoneLines linesW8 :=
  claim_C8 linesW8 (PState.mk [] [wTask1]) (by decide) (by decide)

/-- Claim C9, counterexample to the original statement: on the start line
`[T10] Start a Start b` the stored name is "a" — Python's `split` cuts at
every occurrence of "Start ", so element 1 is the text between the first
and second occurrences — while the claim's "text after the first
occurrence of Start , minus its last character" is "a Start b". -/
theorem claim_C9_counterexample :
    ingest initState lineDoubleStart
        = .ok ⟨[⟨[ 'a' ], 0, -1, -1, [], []⟩], []⟩ ∧
      (textAfterFirstStart lineDoubleStart).dropLast
        = [ 'a', ' ', 'S', 't', 'a', 'r', 't', ' ', 'b' ] ∧
      ([ 'a' ] : List Char) ≠ [ 'a', ' ', 'S', 't', 'a', 'r', 't', ' ', 'b' ] := by
  refine ⟨by decide, by decide, by decide⟩

/-- Claim C9 as amended: the stored name is field 1 of splitting the line
on "Start " — the text between the first and second occurrences, which is
all the text after the first occurrence whenever "Start " occurs exactly
once — with its last character unconditionally removed; so on a start line
with a single "Start " that does not end in a line terminator the recorded
name is the intended name missing its final character. -/
theorem claim_C9_amended (st : PState) (line : List Char) (ts : Int)
    (pre seg : List Char)
    (h1 : startsWith tMark line = true) (h2 : lineTimestamp line = some ts)
    (h3 : containsSub startTok line = true)
    (h4 : pySplitOn startSep line = [pre, seg]) :
    ingest st line =
      .ok ⟨st.active_tasks ++ [⟨seg.dropLast, ts, -1, -1, [], []⟩], st.all_tasks⟩ ∧
      seg = textAfterFirstStart line ∧
      ∀ (nm : List Char) (c : Char), seg = nm ++ [ c ] → seg.dropLast = nm := by
  have h4x : (pySplitOn startSep line)[1]? = some seg := by rw [h4]; rfl
  refine ⟨ingest_start st line ts seg h1 h2 h3 h4x, ?_, ?_⟩
  · rw [textAfterFirstStart, h4]
    rfl
  · intro nm c hseg
    rw [hseg]
    simp

/-- Claim C9 witness: the start line `[T10] Start a` (ending in a newline,
which stands in for the stripped final character). -/
theorem claim_C9_witness :
    ingest initState lineStartA
        = .ok ⟨initState.active_tasks ++
                 [⟨([ 'a', '\n' ]).dropLast, 0, -1, -1, [], []⟩],
               initState.all_tasks⟩ ∧
      ([ 'a', '\n' ] : List Char) = textAfterFirstStart lineStartA ∧
      ∀ (nm : List Char) (c : Char),
        ([ 'a', '\n' ] : List Char) = nm ++ [ c ] →
        ([ 'a', '\n' ] : List Char).dropLast = nm :=
  claim_C9_amended initState lineStartA 0 ("[T10] ".toList) [ 'a', '\n' ]
    (by decide) (by decide) (by decide) (by decide)

/-- Claim C10: a line beginning with "msm" or "fft" that does not split
into exactly two whitespace tokens raises an uncaught unpacking error
(`ValueError`) that aborts the run rather than being ignored. -/
theorem claim_C10 (st : PState) (line : List Char)
    (h1 : (startsWith msmTok line || startsWith fftTok line) = true)
    (h2 : (pySplitWs line).length ≠ 2) :
    ingest st line = .error .valueError ∧
      ∀ (pre post : List (List Char)),
        parse_logs pre initState = .ok st →
        parse_logs (pre ++ line :: post) initState = .error .valueError := by
  have herr := ingest_op_value_error st line h1 h2
  exact ⟨herr, fun pre post hpre =>
    parse_logs_append_error pre initState st line post _ hpre herr⟩

/-- Claim C10 witness: the bare line `msm` as a one-line run. -/
theorem claim_C10_witness :
    ingest initState lineMsmBare = .error .valueError ∧
      parse_logs ([] ++ lineMsmBare :: []) initState = .error .valueError :=
  ⟨(claim_C10 initState lineMsmBare (by decide) (by decide)).1,
   (claim_C10 initState lineMsmBare (by decide) (by decide)).2 [] [] rfl⟩
